import Mathlib

/-!
Verification of the diff-hunk parsing and selective-staging subsystem of the
git-worktree-manager repository (server/index.ts, CommitSquasher.tsx,
src/lib/api.ts).  The TypeScript functions are shallowly embedded as Lean
functions over `String`/`List Char`; JavaScript string primitives
(`split('\n')`, `join('\n')`, `startsWith`, template literals, truthiness)
are modelled explicitly.
-/

/-- Model of JavaScript `s.split('\n')` at the character-list level.
`split` on a trailing separator produces a trailing empty element, and
splitting the empty string yields `[[]]`. -/
def splitLines : List Char → List (List Char)
  | [] => [[]]
  | c :: cs =>
    match splitLines cs with
    | [] => [[]]
    | l :: ls => if c = '\n' then [] :: l :: ls else (c :: l) :: ls

/-- Inverse of `splitLines`: model of JavaScript `parts.join('\n')`. -/
def joinLines : List (List Char) → List Char
  | [] => []
  | [l] => l
  | l :: ls => l ++ '\n' :: joinLines ls

/-- JavaScript `diffOutput.split('\n')` lifted to `String`. -/
def jsSplit (s : String) : List String :=
  (splitLines s.data).map String.mk

/-- JavaScript `lines.join('\n')` lifted to `String`. -/
def jsJoin (ls : List String) : String :=
  String.mk (joinLines (ls.map String.data))

/-- JavaScript `s.startsWith(p)`. -/
def jsStartsWith (s p : String) : Bool :=
  p.data.isPrefixOf s.data

/-- The `line.startsWith('@@')` test of `parseDiff` (server/index.ts:368). -/
def isHeaderLine (l : String) : Bool :=
  jsStartsWith l "@@"

/-- The `line.startsWith('+') && !line.startsWith('+++')` test of
`parseDiff` (server/index.ts:384). -/
def isAddedLine (l : String) : Bool :=
  jsStartsWith l "+" && !(jsStartsWith l "+++")

/-- Longest digit prefix of a character list, with the remainder.  Models a
greedy `\d*` (and, when required nonempty, `\d+`) in the header regex. -/
def takeDigits : List Char → List Char × List Char
  | [] => ([], [])
  | c :: cs =>
    if c.isDigit then
      let r := takeDigits cs
      (c :: r.1, r.2)
    else ([], c :: cs)

/-- Numeric value of a decimal digit string, as computed by JavaScript
`parseInt` on the capture group of the header regex. -/
def digitsToNat (ds : List Char) : Nat :=
  ds.foldl (fun a c => 10 * a + (c.toNat - 48)) 0

/-- Attempt of the regex `@@ -(\d+),?\d* \+(\d+),?\d* @@` at a fixed start
position, returning `parseInt(match[2])` on success.  The pattern is
deterministic under greedy matching: after a maximal `\d+` the following
character is a non-digit, so no backtracking can rescue a failed attempt. -/
def matchHunkHeaderAt (cs : List Char) : Option Nat :=
  match cs with
  | '@' :: '@' :: ' ' :: '-' :: r0 =>
    let p1 := takeDigits r0
    if p1.1 = [] then none
    else
      let r2 := match p1.2 with
        | ',' :: t => t
        | r => r
      let p3 := takeDigits r2
      match p3.2 with
      | ' ' :: '+' :: r4 =>
        let p5 := takeDigits r4
        if p5.1 = [] then none
        else
          let r6 := match p5.2 with
            | ',' :: t => t
            | r => r
          let p7 := takeDigits r6
          match p7.2 with
          | ' ' :: '@' :: '@' :: _ => some (digitsToNat p5.1)
          | _ => none
      | _ => none
  | _ => none

/-- Leftmost-match search of the header regex over the whole line, as
performed by JavaScript `line.match(...)`. -/
def findHunkMatch : List Char → Option Nat
  | [] => none
  | c :: cs =>
    match matchHunkHeaderAt (c :: cs) with
    | some n => some n
    | none => findHunkMatch cs

/-- The `match ? parseInt(match[2]) : 0` computation of `parseDiff`
(server/index.ts:373-374): a malformed header defaults the offset to 0. -/
def parseStartLine (line : String) : Nat :=
  (findHunkMatch line.data).getD 0

/-- One hunk record produced by `parseDiff` (server/index.ts:360). -/
structure DiffHunk where
  header : String
  lines : List String
  startLine : Nat
  endLine : Nat
deriving DecidableEq, Repr, Inhabited

/-- The scanning loop of `parseDiff` (server/index.ts:364-392): `hunks` is
the accumulator of completed hunks and `cur` the open hunk, pushed when the
next `@@` line starts or at end of input. -/
def parseDiffLoop : List String → List DiffHunk → Option DiffHunk → List DiffHunk
  | [], hunks, cur => hunks ++ cur.toList
  | line :: rest, hunks, cur =>
    if isHeaderLine line then
      let s := parseStartLine line
      parseDiffLoop rest (hunks ++ cur.toList)
        (some { header := line, lines := [line], startLine := s, endLine := s })
    else
      match cur with
      | some h =>
        parseDiffLoop rest hunks
          (some { h with
            lines := h.lines ++ [line],
            endLine := if isAddedLine line then h.endLine + 1 else h.endLine })
      | none => parseDiffLoop rest hunks none

/-- `parseDiff` (server/index.ts:359-395): split the diff text on newlines
and scan for hunks. -/
def parseDiff (diffOutput : String) : List DiffHunk :=
  parseDiffLoop (jsSplit diffOutput) [] none

/-- Number of hunk-header lines (lines beginning with `@@`) in a line list. -/
def countHeaders (ls : List String) : Nat :=
  (ls.filter isHeaderLine).length

/-- Number of added lines (beginning `+` but not `+++`) in a line list. -/
def countAdded (ls : List String) : Nat :=
  (ls.filter isAddedLine).length

/-- All raw lines of a hunk list, concatenated in order. -/
def flatLines : List DiffHunk → List String
  | [] => []
  | h :: t => h.lines ++ flatLines t

/-- Structural invariant of a hunk record: the header is the first line and
`endLine` counts one increment per added line past `startLine`. -/
def hunkWF (h : DiffHunk) : Prop :=
  h.lines.head? = some h.header ∧ h.endLine = h.startLine + countAdded h.lines

/-- The lines preceding the first `@@` line of a diff text (the file-pair
preamble), removed: the suffix the parser distributes over its hunks. -/
def minusPreamble (s : String) : String :=
  jsJoin ((jsSplit s).dropWhile (fun l => !(isHeaderLine l)))

/-- The patch document synthesized by the stage endpoint
(server/index.ts:411-414): the template literal
`diff --git a/p b/p\n--- a/p\n+++ b/p\n` followed by the hunk text,
with no escaping or rewriting. -/
def buildPatch (filePath hunk : String) : String :=
  "diff --git a/" ++ filePath ++ " b/" ++ filePath ++ "\n--- a/" ++ filePath
    ++ "\n+++ b/" ++ filePath ++ "\n" ++ hunk

/-- JavaScript truthiness of an optional string field: `undefined`/`null`
and the empty string are falsy. -/
def jsTruthy : Option String → Bool
  | none => false
  | some s => !(s == "")

/-- Which index-mutating action the stage endpoint takes
(server/index.ts:408-429): `if (hunk)` selects the patch path, otherwise
`git.add(filePath)`. -/
inductive StagePlan
  | patchApply (patch : String)
  | addWholeFile (filePath : String)
deriving DecidableEq, Repr

/-- Dispatch of the stage endpoint on the `hunk` request field. -/
def stageDispatch (filePath : String) (hunk : Option String) : StagePlan :=
  if jsTruthy hunk then StagePlan.patchApply (buildPatch filePath (hunk.getD ""))
  else StagePlan.addWholeFile filePath

/-- Backend (version-control) operations issued during a squash, at the
granularity of the spec's capability surface. -/
inductive BackendOp
  | applyPatch (patch : String)
  | addFile (filePath : String)
  | commitFixup (target : String)
  | rebaseAutosquash (base : String)
deriving DecidableEq, Repr

/-- Error message surfaced to the client when a backend call fails: the
server endpoint's `error` field, rethrown by the api layer. -/
def opErrorMsg : BackendOp → String
  | BackendOp.applyPatch _ => "Failed to stage changes"
  | BackendOp.addFile _ => "Failed to stage changes"
  | BackendOp.commitFixup _ => "Failed to create fixup commit"
  | BackendOp.rebaseAutosquash _ => "Failed to rebase"

/-- Whether an operation is the fixup-commit or rebase phase. -/
def isFixupOrRebase : BackendOp → Bool
  | BackendOp.commitFixup _ => true
  | BackendOp.rebaseAutosquash _ => true
  | _ => false

/-- UI step of the CommitSquasher state machine. -/
inductive Step
  | selectFiles
  | selectHunks
  | selectCommit
  | confirm
deriving DecidableEq, Repr

/-- Client-held state of the CommitSquasher component that `handleSquash`
reads and writes.  `selectedHunks` is a JavaScript `Set`, iterated in
insertion order, so it is modelled as a list of indices. -/
structure SquashState where
  step : Step
  selectedFile : Option String
  selectedHunks : List Nat
  selectedCommit : Option String
  currentDiff : Option (String × List DiffHunk)
  error : Option String
  success : Option String
deriving DecidableEq, Repr

/-- The line sequence of hunk `i` of the current diff, rejoined with
newlines: `hunk.lines.join("\n")` in `handleSquash`
(CommitSquasher.tsx:114-115). -/
def hunkPayload (hunks : List DiffHunk) (i : Nat) : String :=
  jsJoin ((hunks.getD i default).lines)

/-- Stage phase of `handleSquash` (CommitSquasher.tsx:110-121): one
hunk-stage call per selected index when any hunks are selected and a diff
is loaded, otherwise a single whole-file call.  Each hunk-stage call goes
through the server's `stageDispatch`. -/
def stageCalls (st : SquashState) (f : String) : List BackendOp :=
  match st.currentDiff with
  | some (_, hunks) =>
    if st.selectedHunks.length > 0 then
      st.selectedHunks.map (fun i =>
        match stageDispatch f (some (hunkPayload hunks i)) with
        | StagePlan.patchApply patch => BackendOp.applyPatch patch
        | StagePlan.addWholeFile p => BackendOp.addFile p)
    else [BackendOp.addFile f]
  | none => [BackendOp.addFile f]

/-- Sequential execution of backend calls: each call is awaited and the
first failure aborts the remaining calls (the thrown error unwinds
`handleSquash`).  Returns the calls actually made and the failing one. -/
def execOps (ok : BackendOp → Bool) : List BackendOp → List BackendOp × Option BackendOp
  | [] => ([], none)
  | op :: rest =>
    if ok op then
      let r := execOps ok rest
      (op :: r.1, r.2)
    else ([op], some op)

/-- JavaScript `s.substring(0, n)`. -/
def jsSubstringTo (s : String) (n : Nat) : String :=
  String.mk (s.data.take n)

/-- Success message of `handleSquash` (CommitSquasher.tsx:129-131). -/
def squashMessage (c : String) : String :=
  "Successfully squashed changes into commit " ++ jsSubstringTo c 7

/-- `handleSquash` (CommitSquasher.tsx:99-147) against a backend oracle
`ok`: validation short-circuits before any backend call; otherwise the
stage, fixup (`--fixup target`), and rebase (`rebase -i --autosquash
target^`) calls run in order until the first failure.  Returns the backend
calls made and the updated component state. -/
def runSquash (st : SquashState) (ok : BackendOp → Bool) :
    List BackendOp × SquashState :=
  if jsTruthy st.selectedFile && jsTruthy st.selectedCommit then
    let f := st.selectedFile.getD ""
    let c := st.selectedCommit.getD ""
    let ops := stageCalls st f ++
      [BackendOp.commitFixup c, BackendOp.rebaseAutosquash (c ++ "^")]
    match execOps ok ops with
    | (tr, some failedOp) =>
      (tr, { st with error := some (opErrorMsg failedOp), success := none })
    | (tr, none) =>
      (tr, { st with
        error := none
        success := some (squashMessage c)
        step := Step.selectFiles
        selectedFile := none
        selectedHunks := []
        selectedCommit := none
        currentDiff := none })
  else
    ([], { st with error := some "Please select a file and target commit" })

/-- File-system and subprocess events of the hunk-staging path
(server/index.ts:416-425). -/
inductive FsOp
  | writeTemp
  | gitApplyCached
  | unlinkTemp
deriving DecidableEq, Repr

/-- Which step of the hunk-staging path failed. -/
inductive StageError
  | applyFailed
  | unlinkFailed
deriving DecidableEq, Repr

deriving instance DecidableEq for Except

/-- Result of `git.raw(['apply','--cached',tempFile])` under the oracle. -/
def applyResult (applyOk : Bool) : Except StageError Unit :=
  if applyOk then Except.ok () else Except.error StageError.applyFailed

/-- Result of `fs.unlink(tempFile)` under the oracle. -/
def unlinkResult (unlinkOk : Bool) : Except StageError Unit :=
  if unlinkOk then Except.ok () else Except.error StageError.unlinkFailed

/-- The try block of the hunk-staging path (server/index.ts:419-421):
`await git apply; await fs.unlink`, recording the events attempted. -/
def tryApplyUnlink (applyOk unlinkOk : Bool) : List FsOp × Except StageError Unit :=
  match applyResult applyOk with
  | Except.error e => ([FsOp.gitApplyCached], Except.error e)
  | Except.ok () =>
    match unlinkResult unlinkOk with
    | Except.error e => ([FsOp.gitApplyCached, FsOp.unlinkTemp], Except.error e)
    | Except.ok () => ([FsOp.gitApplyCached, FsOp.unlinkTemp], Except.ok ())

/-- The whole hunk-staging path (server/index.ts:416-425): write the
temp patch file, then `try { apply; unlink } catch (e) { await unlink;
throw e }`.  An exception from the `await fs.unlink` inside the catch
block propagates instead of the caught error `e`. -/
def stageHunkRun (applyOk unlinkOk : Bool) : List FsOp × Except StageError Unit :=
  match tryApplyUnlink applyOk unlinkOk with
  | (evs, Except.ok ()) => (FsOp.writeTemp :: evs, Except.ok ())
  | (evs, Except.error e) =>
    match unlinkResult unlinkOk with
    | Except.ok () => (FsOp.writeTemp :: evs ++ [FsOp.unlinkTemp], Except.error e)
    | Except.error e2 => (FsOp.writeTemp :: evs ++ [FsOp.unlinkTemp], Except.error e2)

/-- The transient patch file path of the stage endpoint
(server/index.ts:416): `path.join('/tmp', patch-${Date.now()}.patch)`,
where `now` is the millisecond clock value read at the call. -/
def tempPatchPath (now : Nat) : String :=
  "/tmp/" ++ ("patch-" ++ toString now ++ ".patch")

/-- Decimal digit-character representation of a natural number: the
specification of what `Nat.repr` (and JavaScript number-to-string on a
nonnegative integer) produces. -/
def decRep (n : Nat) : List Char :=
  if _h : n < 10 then [Nat.digitChar n]
  else decRep (n / 10) ++ [Nat.digitChar (n % 10)]
decreasing_by
  exact Nat.div_lt_self (by omega) (by omega)

/-- Concrete two-hunk diff text for the squash scenarios. -/
def twoHunkDiffText : String :=
  "@@ -1,3 +1,3 @@\n-a\n+b\n c\n@@ -10,2 +10,3 @@\n d\n+e\n"

/-- Component state of the two-hunk scenario with only hunk 0 selected and
target commit `abc1234`. -/
def scenarioState : SquashState :=
  { step := Step.selectCommit
    selectedFile := some "a.txt"
    selectedHunks := [0]
    selectedCommit := some "abc1234"
    currentDiff := some ("a.txt", parseDiff twoHunkDiffText)
    error := none
    success := none }

/-- Same scenario with both hunks selected. -/
def scenarioStateBoth : SquashState :=
  { scenarioState with selectedHunks := [0, 1] }

/-- The synthesized patch for hunk 0 of the scenario diff. -/
def patchOfHunk0 : String :=
  buildPatch "a.txt" (hunkPayload (parseDiff twoHunkDiffText) 0)

/-- The synthesized patch for hunk 1 of the scenario diff. -/
def patchOfHunk1 : String :=
  buildPatch "a.txt" (hunkPayload (parseDiff twoHunkDiffText) 1)

/-- Backend oracle that fails exactly the applyPatch call for hunk 1. -/
def failSecondApply : BackendOp → Bool :=
  fun op => if op = BackendOp.applyPatch patchOfHunk1 then false else true

/-! ### Split / join infrastructure -/

theorem splitLines_ne_nil (cs : List Char) : splitLines cs ≠ [] := by
  induction cs with
  | nil => simp [splitLines]
  | cons c cs ih =>
    unfold splitLines
    cases h : splitLines cs with
    | nil => exact absurd h ih
    | cons l ls => by_cases hc : c = '\n' <;> simp [hc]

theorem joinLines_cons_cons (l l2 : List Char) (ls : List (List Char)) :
    joinLines (l :: l2 :: ls) = l ++ '\n' :: joinLines (l2 :: ls) := rfl

theorem joinLines_splitLines (cs : List Char) : joinLines (splitLines cs) = cs := by
  induction cs with
  | nil => rfl
  | cons c cs ih =>
    unfold splitLines
    cases h : splitLines cs with
    | nil => exact absurd h (splitLines_ne_nil cs)
    | cons l ls =>
      rw [h] at ih
      show joinLines (if c = '\n' then [] :: l :: ls else (c :: l) :: ls) = c :: cs
      by_cases hc : c = '\n'
      · subst hc
        rw [if_pos rfl, joinLines_cons_cons, ih]
        rfl
      · rw [if_neg hc]
        cases ls with
        | nil =>
          simp only [joinLines] at ih ⊢
          rw [ih]
        | cons l2 ls2 =>
          rw [joinLines_cons_cons] at ih ⊢
          rw [List.cons_append, ih]

theorem jsJoin_jsSplit (s : String) : jsJoin (jsSplit s) = s := by
  apply String.ext
  show joinLines (((splitLines s.data).map String.mk).map String.data) = s.data
  rw [List.map_map]
  have hmap : (String.data ∘ String.mk) = id := by
    funext l
    rfl
  rw [hmap, List.map_id]
  exact joinLines_splitLines s.data

theorem jsJoin_cons (a : String) (ls : List String) (h : ls ≠ []) :
    jsJoin (a :: ls) = a ++ "\n" ++ jsJoin ls := by
  apply String.ext
  cases ls with
  | nil => exact absurd rfl h
  | cons b bs =>
    show joinLines (a.data :: b.data :: bs.map String.data) =
      (a ++ "\n" ++ jsJoin (b :: bs)).data
    rw [joinLines_cons_cons]
    have hn : "\n".data = ['\n'] := rfl
    simp [String.data_append, jsJoin, hn, List.append_assoc]

theorem header_not_added {l : String} (h : isHeaderLine l = true) :
    isAddedLine l = false := by
  unfold isHeaderLine jsStartsWith at h
  unfold isAddedLine jsStartsWith
  have h2 : "@@".data = ['@', '@'] := rfl
  rw [h2] at h
  cases hd : l.data with
  | nil => rw [hd] at h; simp [List.isPrefixOf] at h
  | cons c cs =>
    rw [hd] at h
    have hc : c = '@' := by
      simp [List.isPrefixOf] at h
      exact h.1.symm
    subst hc
    have h3 : "+".data = ['+'] := rfl
    rw [h3]
    simp [List.isPrefixOf]

/-! ### Parser loop invariants -/

theorem flatLines_append (a b : List DiffHunk) :
    flatLines (a ++ b) = flatLines a ++ flatLines b := by
  induction a with
  | nil => rfl
  | cons h t ih => simp [flatLines, ih]

theorem parseDiffLoop_length (ls : List String) :
    ∀ (hunks : List DiffHunk) (cur : Option DiffHunk),
    (parseDiffLoop ls hunks cur).length =
      hunks.length + cur.toList.length + countHeaders ls := by
  induction ls with
  | nil =>
    intro hunks cur
    simp [parseDiffLoop, countHeaders]
  | cons line rest ih =>
    intro hunks cur
    by_cases h : isHeaderLine line = true
    · simp only [parseDiffLoop, h, if_true]
      rw [ih]
      simp only [countHeaders, List.filter_cons, h, if_true, List.length_cons]
      cases cur <;> simp [Option.toList, countHeaders] <;> omega
    · have hf : isHeaderLine line = false := by simpa using h
      simp only [parseDiffLoop, hf, Bool.false_eq_true, if_false]
      cases cur with
      | some hh =>
        rw [ih]
        simp only [countHeaders, List.filter_cons, hf, Bool.false_eq_true, if_false]
        simp [Option.toList]
      | none =>
        rw [ih]
        simp only [countHeaders, List.filter_cons, hf, Bool.false_eq_true, if_false]

theorem parseDiffLoop_flat (ls : List String) :
    ∀ (hunks : List DiffHunk) (cur : Option DiffHunk),
    flatLines (parseDiffLoop ls hunks cur) =
      flatLines hunks ++
        (match cur with
         | some h => h.lines ++ ls
         | none => ls.dropWhile (fun l => !(isHeaderLine l))) := by
  induction ls with
  | nil =>
    intro hunks cur
    cases cur with
    | some h => simp [parseDiffLoop, flatLines_append, flatLines]
    | none => simp [parseDiffLoop, flatLines_append, flatLines]
  | cons line rest ih =>
    intro hunks cur
    by_cases h : isHeaderLine line = true
    · simp only [parseDiffLoop, h, if_true]
      rw [ih]
      cases cur with
      | some hh =>
        simp [flatLines_append, flatLines, Option.toList]
      | none =>
        simp only [List.dropWhile_cons, h, Bool.not_true, Bool.false_eq_true, if_false]
        simp [flatLines_append, flatLines, Option.toList]
    · have hf : isHeaderLine line = false := by simpa using h
      simp only [parseDiffLoop, hf, Bool.false_eq_true, if_false]
      cases cur with
      | some hh =>
        rw [ih]
        simp
      | none =>
        rw [ih]
        simp only [List.dropWhile_cons, hf, Bool.not_false, if_true]

theorem countAdded_append (a b : List String) :
    countAdded (a ++ b) = countAdded a + countAdded b := by
  simp [countAdded, List.filter_append]

theorem parseDiffLoop_wf (ls : List String) :
    ∀ (hunks : List DiffHunk) (cur : Option DiffHunk),
    (∀ h ∈ hunks, hunkWF h) → (∀ h ∈ cur.toList, hunkWF h) →
    ∀ h ∈ parseDiffLoop ls hunks cur, hunkWF h := by
  induction ls with
  | nil =>
    intro hunks cur hh hc h hm
    simp only [parseDiffLoop] at hm
    rcases List.mem_append.mp hm with hm1 | hm2
    · exact hh h hm1
    · exact hc h hm2
  | cons line rest ih =>
    intro hunks cur hh hc h hm
    by_cases hdr : isHeaderLine line = true
    · simp only [parseDiffLoop, hdr, if_true] at hm
      refine ih _ _ ?_ ?_ h hm
      · intro h' hm'
        rcases List.mem_append.mp hm' with hm1 | hm2
        · exact hh h' hm1
        · exact hc h' hm2
      · intro h' hm'
        simp only [Option.toList, List.mem_singleton] at hm'
        subst hm'
        constructor
        · rfl
        · have : countAdded [line] = 0 := by
            simp [countAdded, List.filter_cons, header_not_added hdr]
          simp [this]
    · have hf : isHeaderLine line = false := by simpa using hdr
      simp only [parseDiffLoop, hf, Bool.false_eq_true, if_false] at hm
      cases cur with
      | some hcur =>
        refine ih _ _ hh ?_ h hm
        intro h' hm'
        simp only [Option.toList, List.mem_singleton] at hm'
        subst hm'
        obtain ⟨whead, wcount⟩ := hc hcur (by simp [Option.toList])
        constructor
        · simp only
          cases hl : hcur.lines with
          | nil => rw [hl] at whead; simp at whead
          | cons a t =>
            rw [hl] at whead
            simp only [List.cons_append, List.head?_cons] at whead ⊢
            exact whead
        · simp only [countAdded_append, wcount]
          by_cases ha : isAddedLine line = true
          · simp [ha, countAdded, List.filter_cons]
            omega
          · have haf : isAddedLine line = false := by simpa using ha
            simp [haf, countAdded, List.filter_cons]
      | none =>
        exact ih _ _ hh (by simp [Option.toList]) h hm

/-! ### Claim C1: parser round trip -/

/-- C1.  Parser round-trip: for every diff text, `parseDiff` returns one
hunk per `@@`-line, each hunk's `lines` starts with its header line, and
the concatenation of all hunks' lines rejoined with newlines reproduces the
input text minus the file-pair preamble (the lines before the first `@@`
line); moreover rejoining the split of the input reproduces the input, so
the suffix compared against is literally the original text minus that
preamble. -/
theorem parse_roundtrip (s : String) :
    (parseDiff s).length = countHeaders (jsSplit s)
    ∧ (∀ h ∈ parseDiff s, h.lines.head? = some h.header)
    ∧ jsJoin (flatLines (parseDiff s)) = minusPreamble s
    ∧ jsJoin (jsSplit s) = s := by
  refine ⟨?_, ?_, ?_, jsJoin_jsSplit s⟩
  · have := parseDiffLoop_length (jsSplit s) [] none
    simpa [parseDiff, Option.toList] using this
  · intro h hm
    exact (parseDiffLoop_wf (jsSplit s) [] none (by simp) (by simp [Option.toList]) h hm).1
  · have := parseDiffLoop_flat (jsSplit s) [] none
    simp only [parseDiff, flatLines, List.nil_append] at this ⊢
    rw [this]
    rfl

/-- Witness for C1 at a concrete diff text with a preamble line and one
hunk. -/
theorem parse_roundtrip_witness :
    ((parseDiff "pre\n@@ -1,2 +3,4 @@\n+x\n y").length =
      countHeaders (jsSplit "pre\n@@ -1,2 +3,4 @@\n+x\n y"))
    ∧ (DiffHunk.mk "@@ -1,2 +3,4 @@" ["@@ -1,2 +3,4 @@", "+x", " y"] 3 4).lines.head? =
        some "@@ -1,2 +3,4 @@"
    ∧ jsJoin (flatLines (parseDiff "pre\n@@ -1,2 +3,4 @@\n+x\n y")) =
        minusPreamble "pre\n@@ -1,2 +3,4 @@\n+x\n y" :=
  ⟨(parse_roundtrip "pre\n@@ -1,2 +3,4 @@\n+x\n y").1,
   (parse_roundtrip "pre\n@@ -1,2 +3,4 @@\n+x\n y").2.1 _ (by decide),
   (parse_roundtrip "pre\n@@ -1,2 +3,4 @@\n+x\n y").2.2.1⟩

/-! ### Claim C2: endLine accounting -/

/-- C2.  For every hunk produced by `parseDiff`, `endLine >= startLine` and
`endLine - startLine` equals the number of lines in the hunk's `lines`
beginning with `+` but not `+++`. -/
theorem hunk_endLine_spec (s : String) (h : DiffHunk) (hm : h ∈ parseDiff s) :
    h.startLine ≤ h.endLine ∧ h.endLine - h.startLine = countAdded h.lines := by
  have hwf := parseDiffLoop_wf (jsSplit s) [] none (by simp)
    (by simp [Option.toList]) h hm
  obtain ⟨-, he⟩ := hwf
  omega

/-- Witness for C2 at hunk 0 of the concrete two-hunk diff. -/
theorem hunk_endLine_witness :
    (DiffHunk.mk "@@ -1,3 +1,3 @@" ["@@ -1,3 +1,3 @@", "-a", "+b", " c"] 1 2)
        ∈ parseDiff twoHunkDiffText
    ∧ ((1 : Nat) ≤ 2 ∧ 2 - 1 = countAdded ["@@ -1,3 +1,3 @@", "-a", "+b", " c"]) :=
  ⟨by decide, hunk_endLine_spec twoHunkDiffText
    (DiffHunk.mk "@@ -1,3 +1,3 @@" ["@@ -1,3 +1,3 @@", "-a", "+b", " c"] 1 2)
    (by decide)⟩

/-! ### Claim C3: malformed-header scenario (corrected) -/

/-- C3 counterexample.  The claimed two-element `lines` sequence is wrong:
JavaScript `split('\n')` on the trailing newline yields a final empty
string, which the loop appends to the open hunk's `lines`. -/
theorem parse_malformed_counterexample :
    ¬ ((parseDiff "@@ garbage @@\n+line\n").map DiffHunk.lines =
        [["@@ garbage @@", "+line"]]) := by
  decide

/-- C3 amended.  `parseDiff "@@ garbage @@\n+line\n"` returns exactly one
hunk with `startLine = 0` and `endLine = 1`, whose `lines` is the
three-element sequence `["@@ garbage @@", "+line", ""]` (the trailing empty
string comes from splitting the trailing newline). -/
theorem parse_malformed_amended :
    parseDiff "@@ garbage @@\n+line\n" =
      [{ header := "@@ garbage @@"
         lines := ["@@ garbage @@", "+line", ""]
         startLine := 0
         endLine := 1 }] := by
  decide

/-! ### Claim C4: synthesized patch form -/

/-- C4.  For every file path and every nonempty hunk line sequence (every
hunk of `parseDiff` has its header as first line, hence nonempty `lines`),
the patch document handed to the backend's apply operation is exactly the
three file-pair header lines followed by the hunk's lines, joined by
newlines, with the hunk content passed through verbatim. -/
theorem buildPatch_spec (p : String) (ls : List String) (hne : ls ≠ []) :
    buildPatch p (jsJoin ls) =
      jsJoin (("diff --git a/" ++ p ++ " b/" ++ p) :: ("--- a/" ++ p)
        :: ("+++ b/" ++ p) :: ls) := by
  rw [jsJoin_cons _ _ (by simp), jsJoin_cons _ _ (by simp),
    jsJoin_cons _ _ hne]
  unfold buildPatch
  apply String.ext
  simp [String.data_append, List.append_assoc]

/-- Witness for C4 at a concrete path and hunk. -/
theorem buildPatch_spec_witness :
    buildPatch "a.txt" (jsJoin ["@@ -1 +1 @@", "+x"]) =
      jsJoin ["diff --git a/a.txt b/a.txt", "--- a/a.txt", "+++ b/a.txt",
        "@@ -1 +1 @@", "+x"] :=
  buildPatch_spec "a.txt" ["@@ -1 +1 @@", "+x"] (by decide)

/-! ### Claim C5: two-hunk squash scenario -/

/-- C5.  The scenario diff parses to two hunks; selecting only hunk 0 and
squashing into `abc1234` issues exactly one `applyPatch` call (with the
patch built from hunk 0's content only), then `commitFixup "abc1234"`, then
an autosquash rebase based at `abc1234^`; the run succeeds and the success
message contains `abc1234`. -/
theorem squash_two_hunk_scenario :
    (parseDiff twoHunkDiffText).length = 2
    ∧ (runSquash scenarioState (fun _ => true)).1 =
        [BackendOp.applyPatch patchOfHunk0,
         BackendOp.commitFixup "abc1234",
         BackendOp.rebaseAutosquash "abc1234^"]
    ∧ (runSquash scenarioState (fun _ => true)).2.success =
        some ("Successfully squashed changes into commit " ++ "abc1234" ++ "") := by
  refine ⟨by decide, by decide, ?_⟩
  decide

/-! ### Claim C6: fail-fast validation -/

/-- C6.  With no selected target commit (or no selected file), the squash
action performs zero backend calls and only sets the validation error
message, leaving every other piece of component state unchanged. -/
theorem squash_failfast (st : SquashState) (ok : BackendOp → Bool)
    (hc : jsTruthy st.selectedFile = false ∨ jsTruthy st.selectedCommit = false) :
    runSquash st ok =
      ([], { st with error := some "Please select a file and target commit" }) := by
  unfold runSquash
  rcases hc with h | h <;> simp [h]

/-- Witness for C6: a state with a selected file but no target commit. -/
theorem squash_failfast_witness :
    runSquash
      { step := Step.selectCommit
        selectedFile := some "a.txt"
        selectedHunks := [0]
        selectedCommit := none
        currentDiff := none
        error := none
        success := none } (fun _ => true) =
      ([], { step := Step.selectCommit
             selectedFile := some "a.txt"
             selectedHunks := [0]
             selectedCommit := none
             currentDiff := none
             error := some "Please select a file and target commit"
             success := none }) :=
  squash_failfast _ _ (Or.inr rfl)

/-! ### Claim C8: partial-failure semantics -/

/-- C8.  With both hunks selected and the backend failing exactly the
second `applyPatch`, the calls made are the first (successful) apply and
the second (failing) apply and nothing else: no fixup commit and no rebase
call is issued, the already-applied first patch is never rolled back (no
index-mutating call follows the failure), the reported error names the
staging phase, and the selection state is left untouched. -/
theorem squash_partial_failure_scenario :
    (runSquash scenarioStateBoth failSecondApply).1 =
      [BackendOp.applyPatch patchOfHunk0, BackendOp.applyPatch patchOfHunk1]
    ∧ failSecondApply (BackendOp.applyPatch patchOfHunk0) = true
    ∧ ((runSquash scenarioStateBoth failSecondApply).1.filter isFixupOrRebase) = []
    ∧ (runSquash scenarioStateBoth failSecondApply).2.error =
        some "Failed to stage changes"
    ∧ (runSquash scenarioStateBoth failSecondApply).2.selectedFile =
        scenarioStateBoth.selectedFile
    ∧ (runSquash scenarioStateBoth failSecondApply).2.selectedHunks =
        scenarioStateBoth.selectedHunks
    ∧ (runSquash scenarioStateBoth failSecondApply).2.selectedCommit =
        scenarioStateBoth.selectedCommit
    ∧ (runSquash scenarioStateBoth failSecondApply).2.currentDiff =
        scenarioStateBoth.currentDiff := by
  refine ⟨by decide, by decide, by decide, by decide, by decide, by decide,
    by decide, by decide⟩

/-! ### Claim C10: empty hunk field takes the whole-file path -/

/-- C10.  A stage request whose `hunk` field is the empty string (or
absent) takes the whole-file path (`git add`), and only a nonempty `hunk`
string triggers patch synthesis and apply. -/
theorem stage_empty_hunk_whole_file (p : String) :
    stageDispatch p (some "") = StagePlan.addWholeFile p
    ∧ stageDispatch p none = StagePlan.addWholeFile p
    ∧ ∀ h : String, h ≠ "" → stageDispatch p (some h) =
        StagePlan.patchApply (buildPatch p h) := by
  refine ⟨rfl, rfl, ?_⟩
  intro h hne
  have : jsTruthy (some h) = true := by
    simp [jsTruthy, hne]
  simp [stageDispatch, this]

/-- Witness for C10 at a concrete path and hunk. -/
theorem stage_empty_hunk_whole_file_witness :
    stageDispatch "a.txt" (some "") = StagePlan.addWholeFile "a.txt"
    ∧ stageDispatch "a.txt" (some "+x") =
        StagePlan.patchApply (buildPatch "a.txt" "+x") :=
  ⟨(stage_empty_hunk_whole_file "a.txt").1,
   (stage_empty_hunk_whole_file "a.txt").2.2 "+x" (by decide)⟩

/-! ### Claim C7: cleanup semantics of the hunk-staging path (corrected) -/

/-- C7 counterexample.  When the apply step fails and removing the
transient patch file then also fails, the error reported is NOT the
original apply error: the rejection of `await fs.unlink` inside the catch
block propagates before `throw error` is reached. -/
theorem stage_cleanup_counterexample :
    ¬ ((stageHunkRun false false).2 = Except.error StageError.applyFailed) := by
  decide

/-- C7 amended.  Removal of the transient patch file is attempted on every
exit path, and an apply failure propagates to the caller after cleanup
whenever the cleanup itself succeeds; but if removing the transient file
fails after an apply failure, the error reported is the cleanup (unlink)
error, not the original apply error. -/
theorem stage_cleanup_amended (applyOk unlinkOk : Bool) :
    FsOp.unlinkTemp ∈ (stageHunkRun applyOk unlinkOk).1
    ∧ (applyOk = false → unlinkOk = true →
        (stageHunkRun applyOk unlinkOk).2 = Except.error StageError.applyFailed)
    ∧ (applyOk = false → unlinkOk = false →
        (stageHunkRun applyOk unlinkOk).2 = Except.error StageError.unlinkFailed)
    ∧ (applyOk = true → (stageHunkRun applyOk unlinkOk).2 =
        (if unlinkOk then Except.ok () else Except.error StageError.unlinkFailed)) := by
  cases applyOk <;> cases unlinkOk <;> decide

/-- Witness for C7 amended at the apply-failure/cleanup-failure input. -/
theorem stage_cleanup_amended_witness :
    FsOp.unlinkTemp ∈ (stageHunkRun false false).1
    ∧ (stageHunkRun false false).2 = Except.error StageError.unlinkFailed :=
  ⟨(stage_cleanup_amended false false).1,
   (stage_cleanup_amended false false).2.2.1 rfl rfl⟩

/-! ### Claim C9: transient patch file naming (corrected) -/

/-- C9 counterexample.  The transient name is keyed only on the millisecond
clock value read at the call, so two distinct calls that observe the same
`Date.now()` value (a fast sequential staging loop can easily run twice
within one millisecond) produce the same path. -/
theorem temp_name_collision_counterexample :
    ¬ (∀ clock : Nat → Nat, ∀ i j : Nat, i ≠ j →
        tempPatchPath (clock i) ≠ tempPatchPath (clock j)) :=
  fun hAll => hAll (fun _ => 1728000000000) 0 1 (by decide) rfl

theorem decRep_eq_lt {n : Nat} (h : n < 10) : decRep n = [Nat.digitChar n] := by
  unfold decRep
  rw [dif_pos h]

theorem decRep_eq_ge {n : Nat} (h : ¬ n < 10) :
    decRep n = decRep (n / 10) ++ [Nat.digitChar (n % 10)] := by
  conv_lhs => unfold decRep
  rw [dif_neg h]

theorem decRep_ne_nil (n : Nat) : decRep n ≠ [] := by
  by_cases h : n < 10
  · rw [decRep_eq_lt h]; simp
  · rw [decRep_eq_ge h]; simp

theorem digitChar_inj :
    ∀ a < 10, ∀ b < 10, Nat.digitChar a = Nat.digitChar b → a = b := by
  decide

theorem decRep_inj (m : Nat) : ∀ n, decRep m = decRep n → m = n := by
  induction m using Nat.strong_induction_on with
  | _ m ih =>
    intro n heq
    by_cases hm : m < 10 <;> by_cases hn : n < 10
    · rw [decRep_eq_lt hm, decRep_eq_lt hn] at heq
      have : Nat.digitChar m = Nat.digitChar n := by
        simpa using heq
      exact digitChar_inj m hm n hn this
    · rw [decRep_eq_lt hm, decRep_eq_ge hn] at heq
      have hl := congrArg List.length heq
      simp only [List.length_singleton, List.length_append] at hl
      have h0 : (decRep (n / 10)).length = 0 := by omega
      exact absurd (List.length_eq_zero.mp h0) (decRep_ne_nil _)
    · rw [decRep_eq_ge hm, decRep_eq_lt hn] at heq
      have hl := congrArg List.length heq
      simp only [List.length_singleton, List.length_append] at hl
      have h0 : (decRep (m / 10)).length = 0 := by omega
      exact absurd (List.length_eq_zero.mp h0) (decRep_ne_nil _)
    · rw [decRep_eq_ge hm, decRep_eq_ge hn] at heq
      obtain ⟨h1, h2⟩ := List.append_inj' heq rfl
      have hdiv : m / 10 = n / 10 :=
        ih (m / 10) (Nat.div_lt_self (by omega) (by omega)) (n / 10) h1
      have hc : Nat.digitChar (m % 10) = Nat.digitChar (n % 10) := by
        simpa using h2
      have hmod : m % 10 = n % 10 :=
        digitChar_inj _ (Nat.mod_lt _ (by omega)) _ (Nat.mod_lt _ (by omega)) hc
      omega

theorem toDigitsCore_decRep :
    ∀ (fuel n : Nat) (ds : List Char), n < fuel →
    Nat.toDigitsCore 10 fuel n ds = decRep n ++ ds := by
  intro fuel
  induction fuel with
  | zero =>
    intro n ds h
    omega
  | succ f ih =>
    intro n ds h
    show (if n / 10 = 0 then Nat.digitChar (n % 10) :: ds
      else Nat.toDigitsCore 10 f (n / 10) (Nat.digitChar (n % 10) :: ds)) =
        decRep n ++ ds
    by_cases h0 : n / 10 = 0
    · rw [if_pos h0]
      have hn : n < 10 := by omega
      rw [decRep_eq_lt hn, Nat.mod_eq_of_lt hn]
      rfl
    · rw [if_neg h0]
      have hge : ¬ n < 10 := fun hx => h0 (Nat.div_eq_of_lt hx)
      have hlt : n / 10 < f := by
        have h1 : n / 10 < n := Nat.div_lt_self (by omega) (by omega)
        omega
      rw [ih (n / 10) _ hlt, decRep_eq_ge hge, List.append_assoc]
      rfl

theorem repr_data (n : Nat) : (Nat.repr n).data = decRep n := by
  show (Nat.toDigits 10 n).asString.data = decRep n
  unfold Nat.toDigits
  rw [toDigitsCore_decRep (n + 1) n [] (Nat.lt_succ_self n)]
  simp [List.asString]

/-- C9 amended.  Transient patch file paths are distinct exactly when the
`Date.now()` values observed by the two calls are distinct; calls that read
the same millisecond value collide. -/
theorem tempPatchPath_injective (t1 t2 : Nat) :
    tempPatchPath t1 = tempPatchPath t2 ↔ t1 = t2 := by
  constructor
  · intro h
    have hd := congrArg String.data h
    simp only [tempPatchPath, String.data_append] at hd
    have ht1 : (toString t1).data = decRep t1 := repr_data t1
    have ht2 : (toString t2).data = decRep t2 := repr_data t2
    rw [ht1, ht2] at hd
    have h2 := List.append_cancel_left hd
    have h3 := List.append_cancel_right h2
    have h4 := List.append_cancel_left h3
    exact decRep_inj t1 t2 h4
  · intro h
    rw [h]

/-- Witness for C9 amended: two distinct clock values give distinct paths. -/
theorem tempPatchPath_injective_witness :
    tempPatchPath 1728000000000 ≠ tempPatchPath 1728000000001 :=
  fun h => absurd ((tempPatchPath_injective 1728000000000 1728000000001).mp h)
    (by decide)
